import Mathlib

/-!
Shallow embedding of `src/imgdiff.py`, the IMGDIFF2 patch applier that
rebuilds an Android recovery image from a boot image, a chunk-structured
patch stream and an optional bonus blob.

Byte buffers are `List Nat`; the stateful Python readers over `io.BytesIO`
become explicit positions.  The external capabilities (`bsdiff4.patch`,
`zlib.decompressobj(-15)`, `zlib.compressobj(...)`) are modelled as oracle
functions collected in a `Codecs` structure, exactly as the spec treats the
Delta Engine as a capability boundary.  The output file becomes a `Sink`
that records both its byte content and the trace of write/seek events.
-/

namespace ImgDiff

/-- Decidable equality on `Except`, used to evaluate the engine on closed
inputs. -/
instance {ε α : Type} [DecidableEq ε] [DecidableEq α] :
    DecidableEq (Except ε α) := fun x y =>
  match x, y with
  | .ok a, .ok b => decidable_of_iff (a = b) (by simp)
  | .error e1, .error e2 => decidable_of_iff (e1 = e2) (by simp)
  | .ok _, .error _ => isFalse (by simp)
  | .error _, .ok _ => isFalse (by simp)

/-- Failure taxonomy.  Each constructor corresponds to one abort site in
`imgdiff.py`: the magic-token mismatch (`exit(1)` at line 153), the
`struct.unpack` failure on a truncated fixed-width read, the `KeyError` on
an unknown chunk tag, the `NotImplementedError` raised by
`_read_raw_chunk`, the `ValueError` a negative `seek` raises, the
`short read` exception, and the two length-mismatch exceptions of
`_process_deflate_chunk`. -/
inductive RunError where
  | badMagic
  | truncatedInput
  | unknownChunkType (tag : Int)
  | unsupportedChunkType
  | negativeSeek
  | shortRead
  | expansionLengthMismatch
  | reconstructionLengthMismatch
deriving DecidableEq

/-- `MAGIC_STRING = b'IMGDIFF2'` (line 13). -/
def MAGIC_STRING : List Nat := [73, 77, 71, 68, 73, 70, 70, 50]

/-- Little-endian value of a byte list (native byte order of the x86-64
host on which `struct.unpack` runs). -/
def leValue : List Nat → Nat
  | [] => 0
  | b :: bs => b + 256 * leValue bs

/-- Two's-complement reinterpretation of a `w`-bit unsigned value, as
`struct.unpack('i')` / `struct.unpack('l')` perform for signed fields. -/
def toSigned (w : Nat) (n : Nat) : Int :=
  if n < 2 ^ (w - 1) then (n : Int) else (n : Int) - (2 ^ w : Nat)

/-- `fp.read(n)` on a `BytesIO` positioned at `pos`: returns up to `n`
bytes, fewer when the buffer is exhausted. -/
def readUpTo (data : List Nat) (pos n : Nat) : List Nat :=
  (data.drop pos).take n

/-- `PatchReader.int32` (lines 46-48): read 4 bytes, `struct.unpack('i')`.
`struct` raises when fewer than 4 bytes came back, modelled as
`truncatedInput`. -/
def readInt32 (data : List Nat) (pos : Nat) : Except RunError (Int × Nat) :=
  let bs := readUpTo data pos 4
  if bs.length = 4 then .ok (toSigned 32 (leValue bs), pos + 4)
  else .error .truncatedInput

/-- `PatchReader.int64` (lines 50-52): read 8 bytes, `struct.unpack('l')`
(native 8-byte signed long on the host). -/
def readInt64 (data : List Nat) (pos : Nat) : Except RunError (Int × Nat) :=
  let bs := readUpTo data pos 8
  if bs.length = 8 then .ok (toSigned 64 (leValue bs), pos + 8)
  else .error .truncatedInput

/-- Parsed chunk records: the two implemented variants of the tagged union
(`NormalChunk` and `DeflateChunk` namedtuples, lines 184 and 196). -/
inductive Chunk where
  | normal (src_start src_len patch_offset : Int)
  | deflate (src_start src_len patch_offset src_expanded_len
      target_expected_len level method window_bits mem_level strategy : Int)
deriving DecidableEq

/-- The `patch_offset` field common to both variants. -/
def Chunk.patchOffset : Chunk → Int
  | .normal _ _ po => po
  | .deflate _ _ po _ _ _ _ _ _ _ => po

/-- `_read_normal_chunk` (lines 187-193): three consecutive int64 fields. -/
def readNormalChunk (data : List Nat) (pos : Nat) :
    Except RunError (Chunk × Nat) := do
  let (ss, pos) ← readInt64 data pos
  let (sl, pos) ← readInt64 data pos
  let (po, pos) ← readInt64 data pos
  .ok (.normal ss sl po, pos)

/-- `_read_deflate_chunk` (lines 201-215): five int64 fields followed by
five int32 fields. -/
def readDeflateChunk (data : List Nat) (pos : Nat) :
    Except RunError (Chunk × Nat) := do
  let (ss, pos) ← readInt64 data pos
  let (sl, pos) ← readInt64 data pos
  let (po, pos) ← readInt64 data pos
  let (sel, pos) ← readInt64 data pos
  let (tel, pos) ← readInt64 data pos
  let (level, pos) ← readInt32 data pos
  let (method, pos) ← readInt32 data pos
  let (wbits, pos) ← readInt32 data pos
  let (memLevel, pos) ← readInt32 data pos
  let (strat, pos) ← readInt32 data pos
  .ok (.deflate ss sl po sel tel level method wbits memLevel strat, pos)

/-- Dispatch on the per-record type tag, mirroring the
`read_chunk_funcs` dict (lines 227-231): tag 0 parses a normal record,
tag 2 a deflate record, tag 3 reaches `_read_raw_chunk` which raises
unconditionally, and any other tag is a `KeyError` miss. -/
def readChunkRecord (data : List Nat) (pos : Nat) (tag : Int) :
    Except RunError (Chunk × Nat) :=
  if tag = 0 then readNormalChunk data pos
  else if tag = 2 then readDeflateChunk data pos
  else if tag = 3 then .error .unsupportedChunkType
  else .error (.unknownChunkType tag)

/-- The record-parsing loop of `_make_recovery` (lines 159-163):
`for _ in range(chunk_count)`, reading a tag then the record. -/
def readChunks (data : List Nat) : Nat → Nat → Except RunError (List Chunk × Nat)
  | 0, pos => .ok ([], pos)
  | n + 1, pos => do
    let (tag, pos) ← readInt32 data pos
    let (c, pos) ← readChunkRecord data pos tag
    let (cs, pos) ← readChunks data n pos
    .ok (c :: cs, pos)

/-- The external capabilities: `bsdiff4.patch`, the bounded raw-deflate
decompress `zlib.decompressobj(-15).decompress(data, max_length)`, and
`zlib.compressobj(level, method, window_bits, mem_level, strategy)`
followed by a single `compress` call. -/
structure Codecs where
  bsdiffPatch : List Nat → List Nat → List Nat
  rawInflate : List Nat → Int → List Nat
  deflateCompress : Int → Int → Int → Int → Int → List Nat → List Nat

/-- `source.position = start; source.read(len)` on a `SourceReader`
(lines 22-30): a negative seek raises, seeking past the end is allowed and
the read then returns fewer (possibly zero) bytes; a negative count reads
all remaining bytes, as `BytesIO.read` does. -/
def sourceReadAt (data : List Nat) (start len : Int) :
    Except RunError (List Nat) :=
  if start < 0 then .error .negativeSeek
  else if len < 0 then .ok (data.drop start.toNat)
  else .ok (readUpTo data start.toNat len.toNat)

/-- The bonus blob is a `SourceReader` over `recovery-resource.dat`: an
immutable buffer plus a read position that `read()` advances to the end. -/
structure BonusState where
  data : List Nat
  pos : Nat
deriving DecidableEq

/-- `_process_normal_chunk` (lines 234-242): read `src_len` source bytes
at `src_start` (no length check), seek the patch to `patch_offset`, read
all remaining patch bytes, and apply `bsdiff4.patch`. -/
def processNormalChunk (C : Codecs) (sourceData patchData : List Nat)
    (ss sl po : Int) : Except RunError (List Nat) :=
  match sourceReadAt sourceData ss sl with
  | .error e => .error e
  | .ok srcBytes =>
    if po < 0 then .error .negativeSeek
    else .ok (C.bsdiffPatch srcBytes (patchData.drop po.toNat))

/-- `_process_deflate_chunk` (lines 245-278): read the delta payload from
`patch_offset` to end of stream, read `src_len` source bytes at
`src_start` and fail `shortRead` on a shorter result, decompress bounded
by `src_expanded_len`, append `bonus.read()` when a bonus reader was
supplied (everything from its current position to its end, leaving it
exhausted), check the expanded length, apply `bsdiff4.patch`, check the
reconstructed length, and recompress with the five stored parameters. -/
def processDeflateChunk (C : Codecs) (sourceData patchData : List Nat)
    (bonus : Option BonusState)
    (ss sl po sel tel level method wbits memLevel strat : Int) :
    Except RunError (List Nat × Option BonusState) :=
  if po < 0 then .error .negativeSeek
  else
    let patchBytes := patchData.drop po.toNat
    match sourceReadAt sourceData ss sl with
    | .error e => .error e
    | .ok srcBytes =>
      if (srcBytes.length : Int) ≠ sl then .error .shortRead
      else
        let inflated := C.rawInflate srcBytes sel
        let expanded := match bonus with
          | some b => inflated ++ b.data.drop b.pos
          | none => inflated
        let bonusNext := match bonus with
          | some b => some (BonusState.mk b.data b.data.length)
          | none => none
        if (expanded.length : Int) ≠ sel then .error .expansionLengthMismatch
        else
          let recon := C.bsdiffPatch expanded patchBytes
          if (recon.length : Int) ≠ tel then .error .reconstructionLengthMismatch
          else .ok (C.deflateCompress level method wbits memLevel strat recon,
            bonusNext)

/-- Events observed by the output file: `OutputWriter.write` and
assignments to `OutputWriter.position` (lines 63-79). -/
inductive OutEvent where
  | write (data : List Nat)
  | seek (pos : Nat)
deriving DecidableEq

/-- Writing `data` at `pos` into a `BytesIO` holding `buf`: bytes before
`pos` are kept, a gap past the end is zero-filled, bytes after the written
span are kept. -/
def writeAt (buf : List Nat) (pos : Nat) (data : List Nat) : List Nat :=
  buf.take pos ++ List.replicate (pos - buf.length) 0 ++ data
    ++ buf.drop (pos + data.length)

/-- The output file: its byte content, its cursor, and the trace of events
performed on it. -/
structure Sink where
  buf : List Nat
  pos : Nat
  events : List OutEvent
deriving DecidableEq

/-- `OutputWriter.write` advances the cursor by the number of bytes
written. -/
def Sink.write (s : Sink) (data : List Nat) : Sink :=
  ⟨writeAt s.buf s.pos data, s.pos + data.length, s.events ++ [OutEvent.write data]⟩

/-- `OutputWriter.position = p`. -/
def Sink.seekTo (s : Sink) (p : Nat) : Sink :=
  ⟨s.buf, p, s.events ++ [OutEvent.seek p]⟩

/-- Process one parsed chunk, dispatching as `process_chunk_funcs`
(lines 281-284).  A normal chunk never touches the bonus reader. -/
def runChunk (C : Codecs) (sourceData patchData : List Nat)
    (bonus : Option BonusState) (c : Chunk) :
    Except RunError (List Nat × Option BonusState) :=
  match c with
  | .normal ss sl po =>
      (processNormalChunk C sourceData patchData ss sl po).map
        (fun out => (out, bonus))
  | .deflate ss sl po sel tel level method wbits memLevel strat =>
      processDeflateChunk C sourceData patchData bonus
        ss sl po sel tel level method wbits memLevel strat

/-- The processing loop of `_make_recovery` (lines 165-175): for each
chunk in directory order, seek the patch stream to the chunk's
`patch_offset`, produce the chunk's bytes, and write them at the output
cursor.  An exception aborts the run, leaving the sink as already
written. -/
def processChunks (C : Codecs) (sourceData patchData : List Nat) :
    List Chunk → Option BonusState → Sink → Option RunError × Sink
  | [], _, sink => (none, sink)
  | c :: rest, bonus, sink =>
    if c.patchOffset < 0 then (some .negativeSeek, sink)
    else
      match runChunk C sourceData patchData bonus c with
      | .error e => (some e, sink)
      | .ok (out, bonusNext) =>
          processChunks C sourceData patchData rest bonusNext (sink.write out)

/-- `_make_recovery` (lines 144-177): copy the whole source into the
output, rewind the output cursor to 0, validate the magic token, read the
chunk count, parse that many records, then process them in order. -/
def makeRecovery (C : Codecs) (sourceData patchData : List Nat)
    (bonus : Option (List Nat)) : Option RunError × Sink :=
  let sink : Sink := ⟨[], 0, []⟩
  let sink := sink.write sourceData
  let sink := sink.seekTo 0
  if patchData.take MAGIC_STRING.length ≠ MAGIC_STRING then
    (some .badMagic, sink)
  else
    match readInt32 patchData MAGIC_STRING.length with
    | .error e => (some e, sink)
    | .ok (count, pos) =>
      match readChunks patchData count.toNat pos with
      | .error e => (some e, sink)
      | .ok (chunks, _) =>
        processChunks C sourceData patchData chunks
          (bonus.map fun d => ⟨d, 0⟩) sink

/-- Little-endian encoding of a value below `2^31` as a 4-byte int32
field, used to build concrete patch streams. -/
def int32Bytes (n : Nat) : List Nat :=
  [n % 256, n / 256 % 256, n / 256 ^ 2 % 256, n / 256 ^ 3 % 256]

/-- Little-endian encoding of a value below `2^63` as an 8-byte int64
field. -/
def int64Bytes (n : Nat) : List Nat :=
  [n % 256, n / 256 % 256, n / 256 ^ 2 % 256, n / 256 ^ 3 % 256,
   n / 256 ^ 4 % 256, n / 256 ^ 5 % 256, n / 256 ^ 6 % 256, n / 256 ^ 7 % 256]

/-- Sequential writes: fold `writeAt` over a list of buffers, advancing
the cursor by each buffer's length.  This is the denotation of a pure
write-only event trace. -/
def seqWrites (outs : List (List Nat)) (buf : List Nat) (pos : Nat) :
    List Nat × Nat :=
  outs.foldl (fun bp d => (writeAt bp.1 bp.2 d, bp.2 + d.length)) (buf, pos)

/-- A trivial concrete instantiation of the external capabilities, used to
evaluate the engine on closed inputs: the delta engine returns its base
input, decompression is the identity, compression returns its input. -/
def idCodecs : Codecs :=
  ⟨fun a _ => a, fun a _ => a, fun _ _ _ _ _ d => d⟩

/-- A concrete instantiation whose delta engine always reconstructs 100
bytes of `0x01`, matching the spec's concrete normal-chunk scenario. -/
def onesCodecs : Codecs :=
  ⟨fun _ _ => List.replicate 100 1, fun a _ => a, fun _ _ _ _ _ d => d⟩

/-- The patch stream of the spec's concrete scenario: magic token,
chunk_count = 1, one normal chunk record with `src_start = 0`,
`src_len = 100`, `patch_offset = 40` (the byte right after the directory),
followed by the delta payload. -/
def scenarioPatch (payload : List Nat) : List Nat :=
  MAGIC_STRING ++ int32Bytes 1 ++ int32Bytes 0 ++ int64Bytes 0
    ++ int64Bytes 100 ++ int64Bytes 40 ++ payload

/-- A patch stream declaring a negative chunk count: magic token followed
by the int32 encoding of `-1`. -/
def negCountPatch : List Nat := MAGIC_STRING ++ [255, 255, 255, 255]

/-- A patch stream whose single record has the raw type tag 3. -/
def rawTagPatch : List Nat := MAGIC_STRING ++ int32Bytes 1 ++ int32Bytes 3

/-- A patch stream whose single record has the undefined type tag 7. -/
def unknownTagPatch : List Nat := MAGIC_STRING ++ int32Bytes 1 ++ int32Bytes 7

/-- The plaintext a deflate chunk hands to the delta engine: the bounded
raw-deflate expansion of the source bytes followed by whatever remains of
the bonus buffer (all of it when the bonus is fresh, nothing when it was
already consumed or absent). -/
def expandedOf (C : Codecs) (srcBytes : List Nat) (sel : Int)
    (bonus : Option BonusState) : List Nat :=
  C.rawInflate srcBytes sel ++
    (match bonus with
     | some b => b.data.drop b.pos
     | none => [])

section InversionLemmas

lemma bindErrorInv {α β : Type} {x : Except RunError α}
    {f : α → Except RunError β} {e : RunError}
    (h : (x >>= f) = Except.error e) :
    x = Except.error e ∨ ∃ a, x = Except.ok a ∧ f a = Except.error e := by
  cases x with
  | error e1 =>
    left
    simpa [Bind.bind, Except.bind] using h
  | ok a =>
    right
    exact ⟨a, rfl, by simpa [Bind.bind, Except.bind] using h⟩

lemma bindOkInv {α β : Type} {x : Except RunError α}
    {f : α → Except RunError β} {b : β}
    (h : (x >>= f) = Except.ok b) :
    ∃ a, x = Except.ok a ∧ f a = Except.ok b := by
  cases x with
  | error e1 => simp [Bind.bind, Except.bind] at h
  | ok a =>
    exact ⟨a, rfl, by simpa [Bind.bind, Except.bind] using h⟩

lemma readInt32_error {data : List Nat} {pos : Nat} {e : RunError}
    (h : readInt32 data pos = .error e) : e = .truncatedInput := by
  simp only [readInt32] at h
  split at h <;> simp_all

lemma readInt64_error {data : List Nat} {pos : Nat} {e : RunError}
    (h : readInt64 data pos = .error e) : e = .truncatedInput := by
  simp only [readInt64] at h
  split at h <;> simp_all

lemma readNormalChunk_error {data : List Nat} {pos : Nat} {e : RunError}
    (h : readNormalChunk data pos = .error e) : e = .truncatedInput := by
  unfold readNormalChunk at h
  rcases bindErrorInv h with h | ⟨⟨_, _⟩, -, h⟩
  · exact readInt64_error h
  rcases bindErrorInv h with h | ⟨⟨_, _⟩, -, h⟩
  · exact readInt64_error h
  rcases bindErrorInv h with h | ⟨⟨_, _⟩, -, h⟩
  · exact readInt64_error h
  simp at h

lemma readDeflateChunk_error {data : List Nat} {pos : Nat} {e : RunError}
    (h : readDeflateChunk data pos = .error e) : e = .truncatedInput := by
  unfold readDeflateChunk at h
  rcases bindErrorInv h with h | ⟨⟨_, _⟩, -, h⟩
  · exact readInt64_error h
  rcases bindErrorInv h with h | ⟨⟨_, _⟩, -, h⟩
  · exact readInt64_error h
  rcases bindErrorInv h with h | ⟨⟨_, _⟩, -, h⟩
  · exact readInt64_error h
  rcases bindErrorInv h with h | ⟨⟨_, _⟩, -, h⟩
  · exact readInt64_error h
  rcases bindErrorInv h with h | ⟨⟨_, _⟩, -, h⟩
  · exact readInt64_error h
  rcases bindErrorInv h with h | ⟨⟨_, _⟩, -, h⟩
  · exact readInt32_error h
  rcases bindErrorInv h with h | ⟨⟨_, _⟩, -, h⟩
  · exact readInt32_error h
  rcases bindErrorInv h with h | ⟨⟨_, _⟩, -, h⟩
  · exact readInt32_error h
  rcases bindErrorInv h with h | ⟨⟨_, _⟩, -, h⟩
  · exact readInt32_error h
  rcases bindErrorInv h with h | ⟨⟨_, _⟩, -, h⟩
  · exact readInt32_error h
  simp at h

lemma readChunkRecord_error {data : List Nat} {pos : Nat} {tag : Int}
    {e : RunError} (h : readChunkRecord data pos tag = .error e) :
    e = .truncatedInput ∨ e = .unsupportedChunkType ∨
      e = .unknownChunkType tag := by
  unfold readChunkRecord at h
  split at h
  · exact Or.inl (readNormalChunk_error h)
  split at h
  · exact Or.inl (readDeflateChunk_error h)
  split at h
  · simp at h
    exact Or.inr (Or.inl h.symm)
  · simp at h
    exact Or.inr (Or.inr h.symm)

lemma readChunks_error {data : List Nat} {n pos : Nat} {e : RunError}
    (h : readChunks data n pos = .error e) :
    e = .truncatedInput ∨ e = .unsupportedChunkType ∨
      ∃ tag, e = .unknownChunkType tag := by
  induction n generalizing pos with
  | zero => simp [readChunks] at h
  | succ n ih =>
    unfold readChunks at h
    rcases bindErrorInv h with h | ⟨⟨tag, _⟩, -, h⟩
    · exact Or.inl (readInt32_error h)
    rcases bindErrorInv h with h | ⟨⟨_, _⟩, -, h⟩
    · rcases readChunkRecord_error h with h | h | h
      · exact Or.inl h
      · exact Or.inr (Or.inl h)
      · exact Or.inr (Or.inr ⟨tag, h⟩)
    rcases bindErrorInv h with h | ⟨⟨_, _⟩, -, h⟩
    · exact ih h
    simp at h

lemma sourceReadAt_error {data : List Nat} {start len : Int} {e : RunError}
    (h : sourceReadAt data start len = .error e) : e = .negativeSeek := by
  unfold sourceReadAt at h
  split at h
  · simpa using h.symm
  · split at h <;> simp at h

lemma processNormalChunk_error {C : Codecs} {sourceData patchData : List Nat}
    {ss sl po : Int} {e : RunError}
    (h : processNormalChunk C sourceData patchData ss sl po = .error e) :
    e = .negativeSeek := by
  unfold processNormalChunk at h
  split at h
  · rename_i e1 he
    simp only [Except.error.injEq] at h
    exact h ▸ sourceReadAt_error he
  · split at h
    · simpa using h.symm
    · simp at h

lemma processDeflateChunk_error {C : Codecs} {sourceData patchData : List Nat}
    {bonus : Option BonusState}
    {ss sl po sel tel level method wbits memLevel strat : Int} {e : RunError}
    (h : processDeflateChunk C sourceData patchData bonus
      ss sl po sel tel level method wbits memLevel strat = .error e) :
    e = .negativeSeek ∨ e = .shortRead ∨ e = .expansionLengthMismatch ∨
      e = .reconstructionLengthMismatch := by
  simp only [processDeflateChunk] at h
  split at h
  · exact Or.inl (by simpa using h.symm)
  split at h
  · rename_i e1 he
    simp only [Except.error.injEq] at h
    exact Or.inl (h ▸ sourceReadAt_error he)
  split at h
  · exact Or.inr (Or.inl (by simpa using h.symm))
  split at h
  · exact Or.inr (Or.inr (Or.inl (by simpa using h.symm)))
  split at h
  · exact Or.inr (Or.inr (Or.inr (by simpa using h.symm)))
  · simp at h

lemma runChunk_error {C : Codecs} {sourceData patchData : List Nat}
    {bonus : Option BonusState} {c : Chunk} {e : RunError}
    (h : runChunk C sourceData patchData bonus c = .error e) :
    e = .negativeSeek ∨ e = .shortRead ∨ e = .expansionLengthMismatch ∨
      e = .reconstructionLengthMismatch := by
  cases c with
  | normal ss sl po =>
    simp only [runChunk] at h
    cases h1 : processNormalChunk C sourceData patchData ss sl po with
    | error e1 =>
      rw [h1] at h
      simp only [Except.map, Except.error.injEq] at h
      exact Or.inl (h ▸ processNormalChunk_error h1)
    | ok v => rw [h1] at h; simp [Except.map] at h
  | deflate ss sl po sel tel level method wbits memLevel strat =>
    exact processDeflateChunk_error h

lemma processChunks_error {C : Codecs} {sourceData patchData : List Nat}
    {chunks : List Chunk} {bonus : Option BonusState} {sink : Sink}
    {e : RunError}
    (h : (processChunks C sourceData patchData chunks bonus sink).1 = some e) :
    e = .negativeSeek ∨ e = .shortRead ∨ e = .expansionLengthMismatch ∨
      e = .reconstructionLengthMismatch := by
  induction chunks generalizing bonus sink with
  | nil => simp [processChunks] at h
  | cons c rest ih =>
    unfold processChunks at h
    split at h
    · simp at h
      exact Or.inl h.symm
    · split at h
      · rename_i h1
        simp at h
        exact h ▸ runChunk_error h1
      · exact ih h

end InversionLemmas

section TraceLemmas

lemma seqWrites_cons (d : List Nat) (outs : List (List Nat)) (buf : List Nat)
    (pos : Nat) :
    seqWrites (d :: outs) buf pos =
      seqWrites outs (writeAt buf pos d) (pos + d.length) := rfl

lemma seqWrites_pos (outs : List (List Nat)) (buf : List Nat) (pos : Nat) :
    (seqWrites outs buf pos).2 = pos + (outs.map List.length).sum := by
  induction outs generalizing buf pos with
  | nil => simp [seqWrites]
  | cons d outs ih =>
    rw [seqWrites_cons, ih]
    simp
    omega

lemma processChunks_sink_shape (C : Codecs) (sourceData patchData : List Nat)
    (chunks : List Chunk) (bonus : Option BonusState) (sink : Sink) :
    ∃ outs : List (List Nat),
      (processChunks C sourceData patchData chunks bonus sink).2 =
        ⟨(seqWrites outs sink.buf sink.pos).1,
         (seqWrites outs sink.buf sink.pos).2,
         sink.events ++ outs.map OutEvent.write⟩ := by
  induction chunks generalizing bonus sink with
  | nil =>
    refine ⟨[], ?_⟩
    simp [processChunks, seqWrites]
  | cons c rest ih =>
    unfold processChunks
    split
    · refine ⟨[], ?_⟩
      simp [seqWrites]
    · cases h1 : runChunk C sourceData patchData bonus c with
      | error e =>
        refine ⟨[], ?_⟩
        simp [seqWrites]
      | ok v =>
        obtain ⟨out, bonusNext⟩ := v
        obtain ⟨outs, houts⟩ := ih bonusNext (sink.write out)
        refine ⟨out :: outs, ?_⟩
        rw [houts, seqWrites_cons]
        simp [Sink.write]

lemma readInt32_eval {data : List Nat} {pos : Nat} {bs : List Nat}
    (hbs : readUpTo data pos 4 = bs) (hlen : bs.length = 4) :
    readInt32 data pos = .ok (toSigned 32 (leValue bs), pos + 4) := by
  simp only [readInt32, hbs, hlen, if_pos]

lemma readInt64_eval {data : List Nat} {pos : Nat} {bs : List Nat}
    (hbs : readUpTo data pos 8 = bs) (hlen : bs.length = 8) :
    readInt64 data pos = .ok (toSigned 64 (leValue bs), pos + 8) := by
  simp only [readInt64, hbs, hlen, if_pos]

lemma readChunks_zero (data : List Nat) (pos : Nat) :
    readChunks data 0 pos = .ok ([], pos) := rfl

lemma readChunks_succ (data : List Nat) (n pos : Nat) :
    readChunks data (n + 1) pos = (do
      let (tag, pos1) ← readInt32 data pos
      let (c, pos2) ← readChunkRecord data pos1 tag
      let (cs, pos3) ← readChunks data n pos2
      .ok (c :: cs, pos3) : Except RunError (List Chunk × Nat)) := rfl

lemma expandedOf_none (C : Codecs) (srcBytes : List Nat) (sel : Int) :
    expandedOf C srcBytes sel none = C.rawInflate srcBytes sel := by
  simp [expandedOf]

lemma expandedOf_some (C : Codecs) (srcBytes : List Nat) (sel : Int)
    (b : BonusState) :
    expandedOf C srcBytes sel (some b) =
      C.rawInflate srcBytes sel ++ b.data.drop b.pos := rfl

lemma seedSink_eq (src : List Nat) :
    ((⟨[], 0, []⟩ : Sink).write src).seekTo 0 =
      ⟨src, 0, [OutEvent.write src, OutEvent.seek 0]⟩ := by
  simp [Sink.write, Sink.seekTo, writeAt]

lemma makeRecovery_parse_ok (C : Codecs) (src patch : List Nat)
    (bonus : Option (List Nat)) (count : Int) (pos : Nat)
    (chunks : List Chunk) (posEnd : Nat)
    (hh : patch.take MAGIC_STRING.length = MAGIC_STRING)
    (h1 : readInt32 patch MAGIC_STRING.length = .ok (count, pos))
    (h2 : readChunks patch count.toNat pos = .ok (chunks, posEnd)) :
    makeRecovery C src patch bonus =
      processChunks C src patch chunks (bonus.map fun d => ⟨d, 0⟩)
        ⟨src, 0, [OutEvent.write src, OutEvent.seek 0]⟩ := by
  simp only [makeRecovery, seedSink_eq, hh]
  rw [if_neg (fun hcon => hcon rfl)]
  rw [h1]
  dsimp only
  rw [h2]

lemma makeRecovery_parse_error (C : Codecs) (src patch : List Nat)
    (bonus : Option (List Nat)) (e : RunError)
    (hh : patch.take MAGIC_STRING.length = MAGIC_STRING)
    (herr : readInt32 patch MAGIC_STRING.length = .error e ∨
      ∃ count pos, readInt32 patch MAGIC_STRING.length = .ok (count, pos) ∧
        readChunks patch count.toNat pos = .error e) :
    makeRecovery C src patch bonus =
      (some e, ⟨src, 0, [OutEvent.write src, OutEvent.seek 0]⟩) := by
  simp only [makeRecovery, seedSink_eq, hh]
  rw [if_neg (fun hcon => hcon rfl)]
  rcases herr with h1 | ⟨count, pos, h1, h2⟩
  · rw [h1]
  · rw [h1]
    dsimp only
    rw [h2]

end TraceLemmas

/-- C4: a patch stream whose first 8 bytes are not the literal magic token
fails with `badMagic` before any chunk record is read (the sink has seen
only the verbatim source copy and the rewind), and a stream whose first 8
bytes match never fails with `badMagic`. -/
theorem magic_token_gate (C : Codecs) (sourceData patchData : List Nat)
    (bonus : Option (List Nat)) :
    (patchData.take 8 ≠ MAGIC_STRING →
      (makeRecovery C sourceData patchData bonus).1 = some .badMagic ∧
      (makeRecovery C sourceData patchData bonus).2.events =
        [OutEvent.write sourceData, OutEvent.seek 0]) ∧
    (patchData.take 8 = MAGIC_STRING →
      (makeRecovery C sourceData patchData bonus).1 ≠ some .badMagic) := by
  have hlen : MAGIC_STRING.length = 8 := rfl
  constructor
  · intro hne
    simp only [makeRecovery, hlen]
    rw [if_pos hne]
    simp [Sink.write, Sink.seekTo, writeAt]
  · intro heq
    simp only [makeRecovery, hlen]
    rw [if_neg (not_not_intro heq)]
    cases h1 : readInt32 patchData 8 with
    | error e =>
      have := readInt32_error h1
      simp [this]
    | ok v =>
      obtain ⟨count, pos⟩ := v
      dsimp only
      cases h2 : readChunks patchData count.toNat pos with
      | error e =>
        rcases readChunks_error h2 with h | h | ⟨tag, h⟩ <;> simp [h]
      | ok w =>
        obtain ⟨chunks, posEnd⟩ := w
        dsimp only
        intro hc
        rcases processChunks_error hc with h | h | h | h <;> simp at h

/-- Witness for C4 at a concrete mismatching and a concrete matching
patch stream. -/
theorem magic_token_gate_witness :
    ([0, 0] : List Nat).take 8 ≠ MAGIC_STRING ∧
    (makeRecovery idCodecs [] [0, 0] none).1 = some .badMagic := by
  refine ⟨by decide, ?_⟩
  exact ((magic_token_gate idCodecs [] [0, 0] none).1 (by decide)).1

set_option maxHeartbeats 1600000 in
set_option maxRecDepth 8000 in
/-- C1: source of 100 zero bytes, patch with magic token, chunk count 1
and one normal chunk over the whole source whose delta payload (placed at
`patch_offset = 40`) reconstructs 100 bytes of `0x01`: the run succeeds,
the output is exactly 100 bytes of `0x01`, and its length is still 100. -/
theorem normal_chunk_scenario (C : Codecs) (payload : List Nat)
    (hdelta : C.bsdiffPatch (List.replicate 100 0) payload =
      List.replicate 100 1) :
    (makeRecovery C (List.replicate 100 0) (scenarioPatch payload) none).1 =
      none ∧
    (makeRecovery C (List.replicate 100 0) (scenarioPatch payload) none).2.buf =
      List.replicate 100 1 ∧
    (makeRecovery C (List.replicate 100 0)
      (scenarioPatch payload) none).2.buf.length = 100 := by
  have hh : (scenarioPatch payload).take MAGIC_STRING.length =
      MAGIC_STRING := rfl
  have t1 : readUpTo (scenarioPatch payload) MAGIC_STRING.length 4 =
      [1, 0, 0, 0] := rfl
  have h1 : readInt32 (scenarioPatch payload) MAGIC_STRING.length =
      .ok (1, 12) := by
    rw [readInt32_eval t1 rfl]; decide
  have t2 : readUpTo (scenarioPatch payload) 12 4 = [0, 0, 0, 0] := rfl
  have e2 : readInt32 (scenarioPatch payload) 12 = .ok (0, 16) := by
    rw [readInt32_eval t2 rfl]; decide
  have t3 : readUpTo (scenarioPatch payload) 16 8 =
      [0, 0, 0, 0, 0, 0, 0, 0] := rfl
  have e3 : readInt64 (scenarioPatch payload) 16 = .ok (0, 24) := by
    rw [readInt64_eval t3 rfl]; decide
  have t4 : readUpTo (scenarioPatch payload) 24 8 =
      [100, 0, 0, 0, 0, 0, 0, 0] := rfl
  have e4 : readInt64 (scenarioPatch payload) 24 = .ok (100, 32) := by
    rw [readInt64_eval t4 rfl]; decide
  have t5 : readUpTo (scenarioPatch payload) 32 8 =
      [40, 0, 0, 0, 0, 0, 0, 0] := rfl
  have e5 : readInt64 (scenarioPatch payload) 32 = .ok (40, 40) := by
    rw [readInt64_eval t5 rfl]; decide
  have h2 : readChunks (scenarioPatch payload) (1 : Int).toNat 12 =
      .ok ([Chunk.normal 0 100 40], 40) := by
    rw [show ((1 : Int)).toNat = 0 + 1 from rfl, readChunks_succ, e2]
    dsimp only [Bind.bind, Except.bind]
    rw [show readChunkRecord (scenarioPatch payload) 16 0 =
        readNormalChunk (scenarioPatch payload) 16 from rfl]
    rw [readNormalChunk, e3]
    dsimp only [Bind.bind, Except.bind]
    rw [e4]
    dsimp only [Bind.bind, Except.bind]
    rw [e5]
    dsimp only [Bind.bind, Except.bind]
    rw [readChunks_zero]
  have h4 : (scenarioPatch payload).drop ((40 : Int)).toNat = payload := rfl
  have h5 : sourceReadAt (List.replicate 100 0) 0 100 =
      .ok (List.replicate 100 0) := rfl
  have hrun : makeRecovery C (List.replicate 100 0) (scenarioPatch payload)
      none =
      (none, Sink.write
        ⟨List.replicate 100 0, 0,
         [OutEvent.write (List.replicate 100 0), OutEvent.seek 0]⟩
        (C.bsdiffPatch (List.replicate 100 0) payload)) := by
    rw [makeRecovery_parse_ok C (List.replicate 100 0) (scenarioPatch payload)
      none 1 12 [Chunk.normal 0 100 40] 40 hh h1 h2]
    simp only [processChunks, runChunk, processNormalChunk, Chunk.patchOffset,
      Option.map_none]
    rw [if_neg (by decide : ¬ (40 : Int) < 0), h5]
    dsimp only
    rw [if_neg (by decide : ¬ (40 : Int) < 0), h4]
    simp [Except.map, processChunks]
  rw [hrun, hdelta]
  refine ⟨rfl, ?_, ?_⟩ <;> decide

/-- Witness for C1 with the concrete all-ones delta engine and an empty
payload. -/
theorem normal_chunk_scenario_witness :
    onesCodecs.bsdiffPatch (List.replicate 100 0) [] =
      List.replicate 100 1 ∧
    (makeRecovery onesCodecs (List.replicate 100 0)
      (scenarioPatch []) none).2.buf = List.replicate 100 1 :=
  ⟨rfl, (normal_chunk_scenario onesCodecs [] rfl).2.1⟩

/-- C8: in every run the sink's event trace is the verbatim source copy,
then the rewind of the cursor to 0, then only writes (one per processed
chunk, in directory order, with no further seeks); the final content is
the sequential-overwrite denotation of those writes over the source copy
and the final cursor is the total number of bytes written after the
rewind. -/
theorem output_sequencer_protocol (C : Codecs) (sourceData patchData : List Nat)
    (bonus : Option (List Nat)) :
    ∃ outs : List (List Nat),
      (makeRecovery C sourceData patchData bonus).2.events =
        OutEvent.write sourceData :: OutEvent.seek 0 ::
          outs.map OutEvent.write ∧
      (makeRecovery C sourceData patchData bonus).2.buf =
        (seqWrites outs sourceData 0).1 ∧
      (makeRecovery C sourceData patchData bonus).2.pos =
        (outs.map List.length).sum := by
  simp only [makeRecovery, seedSink_eq]
  split
  · exact ⟨[], by simp [seqWrites]⟩
  · cases h1 : readInt32 patchData MAGIC_STRING.length with
    | error e => exact ⟨[], by simp [seqWrites]⟩
    | ok v =>
      obtain ⟨count, pos⟩ := v
      dsimp only
      cases h2 : readChunks patchData count.toNat pos with
      | error e => exact ⟨[], by simp [seqWrites]⟩
      | ok w =>
        obtain ⟨chunks, posEnd⟩ := w
        dsimp only
        obtain ⟨outs, houts⟩ := processChunks_sink_shape C sourceData patchData
          chunks (bonus.map fun d => ⟨d, 0⟩)
          ⟨sourceData, 0, [OutEvent.write sourceData, OutEvent.seek 0]⟩
        refine ⟨outs, ?_, ?_, ?_⟩ <;> rw [houts] <;>
          simp [seqWrites_pos]

/-- C10: the run parses the whole directory before processing any chunk,
so a failure while reading the chunk count or any record leaves the sink
holding exactly the verbatim source copy, with no chunk output written. -/
theorem parse_failure_sink_untouched (C : Codecs)
    (sourceData patchData : List Nat) (bonus : Option (List Nat))
    (e : RunError)
    (hh : patchData.take MAGIC_STRING.length = MAGIC_STRING)
    (herr : readInt32 patchData MAGIC_STRING.length = .error e ∨
      ∃ count pos,
        readInt32 patchData MAGIC_STRING.length = .ok (count, pos) ∧
        readChunks patchData count.toNat pos = .error e) :
    makeRecovery C sourceData patchData bonus =
      (some e,
        ⟨sourceData, 0, [OutEvent.write sourceData, OutEvent.seek 0]⟩) :=
  makeRecovery_parse_error C sourceData patchData bonus e hh herr

/-- Witness for C10 at a patch stream whose single record carries the
undefined tag 7. -/
theorem parse_failure_sink_untouched_witness :
    unknownTagPatch.take MAGIC_STRING.length = MAGIC_STRING ∧
    makeRecovery idCodecs [9] unknownTagPatch none =
      (some (.unknownChunkType 7),
        ⟨[9], 0, [OutEvent.write [9], OutEvent.seek 0]⟩) :=
  ⟨by decide,
    parse_failure_sink_untouched idCodecs [9] unknownTagPatch none
      (.unknownChunkType 7) (by decide)
      (Or.inr ⟨1, 12, by decide, by decide⟩)⟩

/-- C7: parsing a record with the raw tag 3 is the defined failure
`unsupportedChunkType`; the record loop aborts with it as soon as a raw
tag appears, whatever the remaining count; and a run whose directory
contains a raw record fails with it while the sink still holds exactly
what was written before the failure (the verbatim source copy, no chunk
output). -/
theorem raw_chunk_unsupported (C : Codecs) (sourceData patchData : List Nat)
    (bonus : Option (List Nat)) :
    (∀ pos, readChunkRecord patchData pos 3 =
      .error .unsupportedChunkType) ∧
    (∀ n pos pos1, readInt32 patchData pos = .ok (3, pos1) →
      readChunks patchData (n + 1) pos = .error .unsupportedChunkType) ∧
    (∀ count pos, patchData.take MAGIC_STRING.length = MAGIC_STRING →
      readInt32 patchData MAGIC_STRING.length = .ok (count, pos) →
      readChunks patchData count.toNat pos =
        .error .unsupportedChunkType →
      makeRecovery C sourceData patchData bonus =
        (some .unsupportedChunkType,
          ⟨sourceData, 0,
           [OutEvent.write sourceData, OutEvent.seek 0]⟩)) := by
  refine ⟨fun pos => rfl, ?_, ?_⟩
  · intro n pos pos1 htag
    rw [readChunks_succ, htag]
    dsimp only [Bind.bind, Except.bind]
    rfl
  · intro count pos hh h1 h2
    exact makeRecovery_parse_error C sourceData patchData bonus
      .unsupportedChunkType hh (Or.inr ⟨count, pos, h1, h2⟩)

/-- Witness for C7 at a patch stream whose single record is a raw
record. -/
theorem raw_chunk_unsupported_witness :
    rawTagPatch.take MAGIC_STRING.length = MAGIC_STRING ∧
    makeRecovery idCodecs [9] rawTagPatch none =
      (some .unsupportedChunkType,
        ⟨[9], 0, [OutEvent.write [9], OutEvent.seek 0]⟩) :=
  ⟨by decide,
    (raw_chunk_unsupported idCodecs [9] rawTagPatch none).2.2 1 12
      (by decide) (by decide) (by decide)⟩

/-- C9 counterexample: the chunk count is read as a signed int32, so the
stream `magic ++ FF FF FF FF` declares chunk count `-1`; the run
nevertheless parses successfully (reading zero records, not `-1` records)
and completes, refuting both "chunk count ≥ 0" and "reads exactly
chunk_count records" for successfully parsed directories. -/
theorem chunk_count_negative_counterexample :
    readInt32 negCountPatch MAGIC_STRING.length = .ok (-1, 12) ∧
    readChunks negCountPatch ((-1 : Int)).toNat 12 = .ok ([], 12) ∧
    makeRecovery idCodecs [] negCountPatch none =
      (none, ⟨[], 0, [OutEvent.write [], OutEvent.seek 0]⟩) ∧
    ¬ (0 : Int) ≤ -1 ∧ ([] : List Chunk).length ≠ 1 := by decide

/-- C9 amended: the declared chunk count is a signed 32-bit value that may
be negative; the parser reads exactly `max(chunk_count, 0)` records — the
record list of a successfully parsed directory has length
`chunk_count.toNat`. -/
theorem chunk_records_read_amended (data : List Nat) (count : Int)
    (pos : Nat) (chunks : List Chunk) (posEnd : Nat)
    (h : readChunks data count.toNat pos = .ok (chunks, posEnd)) :
    (chunks.length : Int) = max count 0 := by
  have hlen : ∀ (n pos1 : Nat) (cs : List Chunk) (p2 : Nat),
      readChunks data n pos1 = .ok (cs, p2) → cs.length = n := by
    intro n
    induction n with
    | zero =>
      intro pos1 cs p2 hz
      rw [readChunks_zero] at hz
      simp at hz
      simp [hz.1]
    | succ n ih =>
      intro pos1 cs p2 hs
      rw [readChunks_succ] at hs
      rcases bindOkInv hs with ⟨⟨tag, q1⟩, -, hs⟩
      rcases bindOkInv hs with ⟨⟨c, q2⟩, -, hs⟩
      rcases bindOkInv hs with ⟨⟨cs3, q3⟩, h3, hs⟩
      simp at hs
      rw [← hs.1]
      simp [ih q2 cs3 q3 h3]
  rw [hlen count.toNat pos chunks posEnd h]
  rw [Int.toNat_eq_max]

/-- Witness for the amended C9 at the concrete scenario patch, whose
directory declares one chunk and holds one record. -/
theorem chunk_records_read_amended_witness :
    readChunks (scenarioPatch []) ((1 : Int)).toNat 12 =
      .ok ([Chunk.normal 0 100 40], 40) ∧
    (([Chunk.normal 0 100 40] : List Chunk).length : Int) = max 1 0 :=
  ⟨by decide,
    chunk_records_read_amended (scenarioPatch []) 1 12
      [Chunk.normal 0 100 40] 40 (by decide)⟩

/-- C2: when its checks pass, a deflate chunk's output is exactly the
spec's pipeline: the delta payload is everything in the patch stream from
`patch_offset` on; the source bytes read at `src_start` are decompressed
by the raw-deflate decompressor bounded by `src_expanded_len`; the full
bonus remainder is appended when a bonus reader is present; the delta
engine is applied to that plaintext; and the result is recompressed once
with the five stored parameters, the bonus reader being left exhausted. -/
theorem deflate_chunk_pipeline (C : Codecs) (sourceData patchData : List Nat)
    (bonus : Option BonusState) (srcBytes : List Nat)
    (ss sl po sel tel level method wbits memLevel strat : Int)
    (hpo : ¬ po < 0)
    (hsrc : sourceReadAt sourceData ss sl = .ok srcBytes)
    (hsl : (srcBytes.length : Int) = sl)
    (hexp : ((expandedOf C srcBytes sel bonus).length : Int) = sel)
    (hrec : ((C.bsdiffPatch (expandedOf C srcBytes sel bonus)
        (patchData.drop po.toNat)).length : Int) = tel) :
    processDeflateChunk C sourceData patchData bonus
        ss sl po sel tel level method wbits memLevel strat =
      .ok (C.deflateCompress level method wbits memLevel strat
          (C.bsdiffPatch (expandedOf C srcBytes sel bonus)
            (patchData.drop po.toNat)),
        bonus.map fun b => ⟨b.data, b.data.length⟩) := by
  cases bonus with
  | none =>
    rw [expandedOf_none] at hexp hrec
    simp only [processDeflateChunk, Option.map_none]
    rw [if_neg hpo, hsrc]
    dsimp only
    rw [if_neg (not_not_intro hsl), if_neg (not_not_intro hexp),
      if_neg (not_not_intro hrec), expandedOf_none]
    rfl
  | some b =>
    rw [expandedOf_some] at hexp hrec
    simp only [processDeflateChunk, Option.map_some]
    rw [if_neg hpo, hsrc]
    dsimp only
    rw [if_neg (not_not_intro hsl), if_neg (not_not_intro hexp),
      if_neg (not_not_intro hrec), expandedOf_some]
    rfl

/-- Witness for C2 with the identity codecs on a one-byte source. -/
theorem deflate_chunk_pipeline_witness :
    sourceReadAt [5] 0 1 = .ok [5] ∧
    processDeflateChunk idCodecs [5] [] none 0 1 0 1 1 0 0 0 0 0 =
      .ok (idCodecs.deflateCompress 0 0 0 0 0
        (idCodecs.bsdiffPatch (expandedOf idCodecs [5] 1 none)
          (List.drop ((0 : Int)).toNat [])), none) :=
  ⟨by decide,
    deflate_chunk_pipeline idCodecs [5] [] none [5] 0 1 0 1 1 0 0 0 0 0
      (by decide) (by decide) (by decide) (by decide) (by decide)⟩

/-- C3: with a fresh bonus reader the deflate plaintext is the
decompressed source bytes followed by the whole bonus buffer and the
expansion check fails exactly when that combined length differs from
`src_expanded_len`; a successful deflate chunk leaves the bonus reader
exhausted; and a deflate chunk processed with an exhausted bonus reader
appends no bonus bytes — it behaves (up to the returned reader state)
exactly like one with no bonus at all. -/
theorem bonus_consumed_once (C : Codecs) (sourceData patchData : List Nat)
    (bd srcBytes : List Nat)
    (ss sl po sel tel level method wbits memLevel strat : Int)
    (hpo : ¬ po < 0)
    (hsrc : sourceReadAt sourceData ss sl = .ok srcBytes)
    (hsl : (srcBytes.length : Int) = sl) :
    (processDeflateChunk C sourceData patchData (some ⟨bd, 0⟩)
        ss sl po sel tel level method wbits memLevel strat =
        .error .expansionLengthMismatch ↔
      ((C.rawInflate srcBytes sel ++ bd).length : Int) ≠ sel) ∧
    (∀ out bonusNext,
      processDeflateChunk C sourceData patchData (some ⟨bd, 0⟩)
        ss sl po sel tel level method wbits memLevel strat =
        .ok (out, bonusNext) →
      bonusNext = some ⟨bd, bd.length⟩ ∧
      out = C.deflateCompress level method wbits memLevel strat
        (C.bsdiffPatch (C.rawInflate srcBytes sel ++ bd)
          (patchData.drop po.toNat))) ∧
    (∀ ss2 sl2 po2 sel2 tel2 l2 m2 w2 ml2 st2 : Int,
      (processDeflateChunk C sourceData patchData (some ⟨bd, bd.length⟩)
        ss2 sl2 po2 sel2 tel2 l2 m2 w2 ml2 st2).map Prod.fst =
      (processDeflateChunk C sourceData patchData none
        ss2 sl2 po2 sel2 tel2 l2 m2 w2 ml2 st2).map Prod.fst) := by
  refine ⟨?_, ?_, ?_⟩
  · simp only [processDeflateChunk]
    rw [if_neg hpo, hsrc]
    dsimp only
    rw [if_neg (not_not_intro hsl)]
    simp only [List.drop_zero]
    by_cases hc : ((C.rawInflate srcBytes sel ++ bd).length : Int) ≠ sel
    · rw [if_pos hc]
      exact iff_of_true rfl hc
    · rw [if_neg hc, iff_false_intro hc, iff_false]
      split <;> simp
  · intro out bonusNext h
    simp only [processDeflateChunk] at h
    rw [if_neg hpo, hsrc] at h
    dsimp only at h
    rw [if_neg (not_not_intro hsl)] at h
    simp only [List.drop_zero] at h
    split at h
    · simp at h
    split at h
    · simp at h
    · simp at h
      exact ⟨h.2.symm, h.1.symm⟩
  · intro ss2 sl2 po2 sel2 tel2 l2 m2 w2 ml2 st2
    simp only [processDeflateChunk, List.drop_length, List.append_nil]
    split
    · rfl
    cases hs : sourceReadAt sourceData ss2 sl2 with
    | error e => rfl
    | ok sb =>
      dsimp only
      split
      · rfl
      split
      · rfl
      split
      · rfl
      · rfl

/-- Witness for C3 with the identity codecs, a one-byte source and a
one-byte bonus buffer. -/
theorem bonus_consumed_once_witness :
    sourceReadAt [5] 0 1 = .ok [5] ∧
    (processDeflateChunk idCodecs [5] [] (some ⟨[7], 0⟩)
        0 1 0 2 2 0 0 0 0 0 =
        .error .expansionLengthMismatch ↔
      ((idCodecs.rawInflate [5] 2 ++ [7]).length : Int) ≠ 2) :=
  ⟨by decide,
    (bonus_consumed_once idCodecs [5] [] [7] [5] 0 1 0 2 2 0 0 0 0 0
      (by decide) (by decide) (by decide)).1⟩

/-- C5: once the source read has passed its length check, a deflate chunk
fails with `expansionLengthMismatch` exactly when the decompressed bytes
plus any appended bonus bytes do not measure `src_expanded_len`; it fails
with `reconstructionLengthMismatch` exactly when that check passed and
the delta-reconstructed plaintext does not measure `target_expected_len`;
and on success both buffers have exactly the declared lengths — nothing
is truncated or padded. -/
theorem deflate_length_invariants (C : Codecs)
    (sourceData patchData : List Nat) (bonus : Option BonusState)
    (srcBytes : List Nat)
    (ss sl po sel tel level method wbits memLevel strat : Int)
    (hpo : ¬ po < 0)
    (hsrc : sourceReadAt sourceData ss sl = .ok srcBytes)
    (hsl : (srcBytes.length : Int) = sl) :
    (processDeflateChunk C sourceData patchData bonus
        ss sl po sel tel level method wbits memLevel strat =
        .error .expansionLengthMismatch ↔
      ((expandedOf C srcBytes sel bonus).length : Int) ≠ sel) ∧
    (processDeflateChunk C sourceData patchData bonus
        ss sl po sel tel level method wbits memLevel strat =
        .error .reconstructionLengthMismatch ↔
      (((expandedOf C srcBytes sel bonus).length : Int) = sel ∧
       ((C.bsdiffPatch (expandedOf C srcBytes sel bonus)
           (patchData.drop po.toNat)).length : Int) ≠ tel)) ∧
    (∀ out bonusNext,
      processDeflateChunk C sourceData patchData bonus
        ss sl po sel tel level method wbits memLevel strat =
        .ok (out, bonusNext) →
      ((expandedOf C srcBytes sel bonus).length : Int) = sel ∧
      ((C.bsdiffPatch (expandedOf C srcBytes sel bonus)
          (patchData.drop po.toNat)).length : Int) = tel) := by
  have hred : processDeflateChunk C sourceData patchData bonus
      ss sl po sel tel level method wbits memLevel strat =
      if ((expandedOf C srcBytes sel bonus).length : Int) ≠ sel then
        .error .expansionLengthMismatch
      else if ((C.bsdiffPatch (expandedOf C srcBytes sel bonus)
          (patchData.drop po.toNat)).length : Int) ≠ tel then
        .error .reconstructionLengthMismatch
      else .ok (C.deflateCompress level method wbits memLevel strat
          (C.bsdiffPatch (expandedOf C srcBytes sel bonus)
            (patchData.drop po.toNat)),
        bonus.map fun b => ⟨b.data, b.data.length⟩) := by
    cases bonus with
    | none =>
      simp only [processDeflateChunk, expandedOf_none]
      rw [if_neg hpo, hsrc]
      dsimp only
      rw [if_neg (not_not_intro hsl)]
      rfl
    | some b =>
      simp only [processDeflateChunk, expandedOf_some]
      rw [if_neg hpo, hsrc]
      dsimp only
      rw [if_neg (not_not_intro hsl)]
      rfl
  rw [hred]
  by_cases h1 : ((expandedOf C srcBytes sel bonus).length : Int) ≠ sel
  · rw [if_pos h1]
    refine ⟨iff_of_true rfl h1, ?_, ?_⟩
    · simp [h1]
    · intro out bonusNext h
      simp at h
  · rw [if_neg h1]
    by_cases h2 : ((C.bsdiffPatch (expandedOf C srcBytes sel bonus)
        (patchData.drop po.toNat)).length : Int) ≠ tel
    · rw [if_pos h2]
      refine ⟨iff_of_false (by simp) h1,
        iff_of_true rfl ⟨not_ne_iff.mp h1, h2⟩, ?_⟩
      intro out bonusNext h
      simp at h
    · rw [if_neg h2]
      refine ⟨iff_of_false (by simp) h1, ?_, ?_⟩
      · simp only [iff_false_intro (fun hcon =>
          h2 (And.right hcon)), iff_false]
        simp
      · intro out bonusNext h
        exact ⟨not_ne_iff.mp h1, not_ne_iff.mp h2⟩

/-- Witness for C5 with the identity codecs on a one-byte source, no
bonus. -/
theorem deflate_length_invariants_witness :
    sourceReadAt [5] 0 1 = .ok [5] ∧
    (processDeflateChunk idCodecs [5] [] none 0 1 0 2 2 0 0 0 0 0 =
        .error .expansionLengthMismatch ↔
      ((expandedOf idCodecs [5] 2 none).length : Int) ≠ 2) :=
  ⟨by decide,
    (deflate_length_invariants idCodecs [5] [] none [5] 0 1 0 2 2 0 0 0 0 0
      (by decide) (by decide) (by decide)).1⟩

/-- C6 counterexample: a normal chunk asking for 100 source bytes from a
2-byte source does not fail with `shortRead` — the code has no length
check on the normal path, so it proceeds with the 2 bytes that were
available and hands them to the delta engine. -/
theorem short_read_normal_counterexample :
    ([0, 0] : List Nat).length < 100 ∧
    processNormalChunk idCodecs [0, 0] [] 0 100 0 = .ok [0, 0] := by decide

/-- C6 amended: only deflate chunks enforce the read-length check — a
deflate chunk fails with `shortRead` exactly when the source read returned
a different number of bytes than `src_len`; a normal chunk performs no
such check and proceeds with however many bytes the source view returned
(up to `src_len`). -/
theorem short_read_amended (C : Codecs) (sourceData patchData : List Nat)
    (bonus : Option BonusState) :
    (∀ (ss sl po sel tel level method wbits memLevel strat : Int)
       (srcBytes : List Nat), ¬ po < 0 →
      sourceReadAt sourceData ss sl = .ok srcBytes →
      (processDeflateChunk C sourceData patchData bonus
          ss sl po sel tel level method wbits memLevel strat =
          .error .shortRead ↔
        (srcBytes.length : Int) ≠ sl)) ∧
    (∀ ss sl po : Int, ¬ ss < 0 → ¬ po < 0 →
      processNormalChunk C sourceData patchData ss sl po =
        .ok (C.bsdiffPatch
          (if sl < 0 then sourceData.drop ss.toNat
           else readUpTo sourceData ss.toNat sl.toNat)
          (patchData.drop po.toNat))) := by
  constructor
  · intro ss sl po sel tel level method wbits memLevel strat srcBytes
      hpo hsrc
    simp only [processDeflateChunk]
    rw [if_neg hpo, hsrc]
    dsimp only
    by_cases hc : (srcBytes.length : Int) ≠ sl
    · rw [if_pos hc]
      exact iff_of_true rfl hc
    · rw [if_neg hc, iff_false_intro hc, iff_false]
      split
      · simp
      split
      · simp
      · simp
  · intro ss sl po hss hpo
    simp only [processNormalChunk, sourceReadAt]
    rw [if_neg hss]
    by_cases hneg : sl < 0
    · simp only [if_pos hneg]
      rw [if_neg hpo]
    · simp only [if_neg hneg]
      rw [if_neg hpo]

/-- Witness for the amended C6: the deflate check fires on a 2-byte
source asked for 100 bytes, and the normal path on the same input
proceeds without error. -/
theorem short_read_amended_witness :
    (processDeflateChunk idCodecs [0, 0] [] none 0 100 0 0 0 0 0 0 0 0 =
        .error .shortRead ↔
      ((readUpTo [0, 0] 0 100).length : Int) ≠ 100) ∧
    processNormalChunk idCodecs [0, 0] [] 0 100 0 =
      .ok (idCodecs.bsdiffPatch
        (if (100 : Int) < 0 then List.drop ((0 : Int)).toNat [0, 0]
         else readUpTo [0, 0] ((0 : Int)).toNat ((100 : Int)).toNat)
        (List.drop ((0 : Int)).toNat [])) :=
  ⟨(short_read_amended idCodecs [0, 0] [] none).1 0 100 0 0 0 0 0 0 0 0
      (readUpTo [0, 0] 0 100) (by decide) (by decide),
    (short_read_amended idCodecs [0, 0] [] none).2 0 100 0
      (by decide) (by decide)⟩

end ImgDiff
